import Mathlib

/-!
Verification of the FnordControl bus library (fnordlib.py).

The embedding models the Python 2 code faithfully:
* the serial transport is a log of wire events (bytes written and flush calls);
* Python's `chr` accepts only arguments in [0, 256) and raises `ValueError`
  otherwise; we model it as an `Option Nat`;
* each bus operation writes its frame bytes one `chr` at a time, stopping at
  the first `chr` failure (bytes already written stay on the wire), and calls
  `flush` (which calls `flushInput` then `flushOutput`) only when every write
  succeeded;
* Python list indexing (negative indices wrap) and `list.remove` (first
  structural match, error when absent) are modelled by `pyIndex` / `pyRemove`;
* object identity of a bus (the back-reference held by each light) is
  modelled by a numeric bus identifier.
-/

/-- Number of lights accessible on the bus (`LIGHTCOUNT = 20`). -/
def LIGHTCOUNT : Nat := 20

/-- One observable event on the serial transport: a byte written by
`con.write(chr(x))`, or one of the two flush calls made by `FnordBus.flush`. -/
inductive WireEvent where
  | byte : Nat → WireEvent
  | flushInput : WireEvent
  | flushOutput : WireEvent
  deriving DecidableEq

/-- Python 2 `chr`: defined exactly on [0, 256), raising `ValueError`
otherwise (modelled as `none`). -/
def chr (n : Int) : Option Nat :=
  if 0 ≤ n ∧ n < 256 then some n.toNat else none

/-- Sequentially perform `con.write(chr(a))` for each list element: every
successful `chr` appends its byte to the wire log; the first failing `chr`
aborts the sequence, keeping the bytes already written. Returns the new log
and whether all writes succeeded. -/
def writeAll (evs : List WireEvent) : List (Option Nat) → List WireEvent × Bool
  | [] => (evs, true)
  | some b :: rest => writeAll (evs ++ [WireEvent.byte b]) rest
  | none :: _ => (evs, false)

/-- The `chr` arguments written by `FnordBus.sync(addr)`:
fifteen `chr(27)` then `chr(addr)`. -/
def sync_frame (addr : Int) : List Int :=
  List.replicate 15 27 ++ [addr]

/-- The `chr` arguments written by `FnordBus.fade_rgb(addr, r, g, b, step,
delay)`: `chr(addr)`, `chr(1)`, `chr(step)`, `chr(delay)`, `chr(r)`,
`chr(g)`, `chr(b)`, then `zeros()` = eight `chr(0)`. -/
def fade_frame (addr r g b step delay : Int) : List Int :=
  [addr, 1, step, delay, r, g, b] ++ List.replicate 8 0

/-- The `chr` arguments written by `FnordBus.stop(addr, fading)`:
`chr(addr)`, `chr(8)`, `chr(fading)`, then `zeros(12)` = twelve `chr(0)`. -/
def stop_frame (addr fading : Int) : List Int :=
  [addr, 8, fading] ++ List.replicate 12 0

/-- One `FnordLight`: back-reference to its controller (`fnordcontroller`,
modelled as the owning bus's identifier), its bus address `number`, and the
cached light color. -/
structure FnordLight where
  fnordcontroller : Nat
  number : Nat
  red : Int
  green : Int
  blue : Int
  deriving DecidableEq

/-- `FnordBus` state: bus identity, the wire log of its serial connection,
the cached bus color, and the list of `FnordLight` handles. -/
structure FnordBus where
  id : Nat
  events : List WireEvent
  red : Int
  green : Int
  blue : Int
  lights : List FnordLight
  deriving DecidableEq

/-- Shared shape of the bodies of `sync`, `fade_rgb` and `stop`: with the
lock held, write each frame byte with `con.write(chr(-))`, then, if no write
raised, `self.flush()` (which calls `flushInput` and `flushOutput`). The
`Bool` result records whether the operation completed without raising. -/
def FnordBus.sendFrame (bus : FnordBus) (frame : List Int) : FnordBus × Bool :=
  match writeAll bus.events (frame.map chr) with
  | (evs, true) => ({ bus with events := evs ++ [WireEvent.flushInput, WireEvent.flushOutput] }, true)
  | (evs, false) => ({ bus with events := evs }, false)

/-- `FnordBus.sync(addr)`: send the sync preamble and the address byte. -/
def FnordBus.sync (bus : FnordBus) (addr : Int) : FnordBus × Bool :=
  bus.sendFrame (sync_frame addr)

/-- `FnordBus.sync()` with the default argument `addr = 0` from the source. -/
def FnordBus.sync_default (bus : FnordBus) : FnordBus × Bool :=
  bus.sync 0

/-- `FnordBus.fade_rgb(addr, r, g, b, step, delay)`. -/
def FnordBus.fade_rgb (bus : FnordBus) (addr r g b step delay : Int) : FnordBus × Bool :=
  bus.sendFrame (fade_frame addr r g b step delay)

/-- `FnordBus.stop(addr, fading)`. -/
def FnordBus.stop (bus : FnordBus) (addr fading : Int) : FnordBus × Bool :=
  bus.sendFrame (stop_frame addr fading)

/-- `FnordBus.stop()` with the default arguments `addr = 255, fading = 1`. -/
def FnordBus.stop_default (bus : FnordBus) : FnordBus × Bool :=
  bus.stop 255 1

/-- `FnordBus.black(addr)`: `self.fade_rgb(addr, 0, 0, 0)` with the default
`step = 5, delay = 0`. -/
def FnordBus.black (bus : FnordBus) (addr : Int) : FnordBus × Bool :=
  bus.fade_rgb addr 0 0 0 5 0

/-- `FnordBus.setRGB(r, g, b)`: sets the cached bus color, no wire traffic. -/
def FnordBus.setRGB (bus : FnordBus) (r g b : Int) : FnordBus :=
  { bus with red := r, green := g, blue := b }

/-- `FnordBus.update()`: `self.fade_rgb(255, self.red, self.green, self.blue)`
with the default `step = 5, delay = 0`. -/
def FnordBus.update (bus : FnordBus) : FnordBus × Bool :=
  bus.fade_rgb 255 bus.red bus.green bus.blue 5 0

/-- Python list indexing `l[i]`: non-negative indices index from the front,
negative indices from the back (`l[i] = l[len(l) + i]`); out-of-bounds
raises `IndexError` (modelled as `none`). -/
def pyIndex (l : List α) (i : Int) : Option α :=
  if 0 ≤ i then l.get? i.toNat
  else if 0 ≤ i + l.length then l.get? (i + l.length).toNat
  else none

/-- `FnordBus.getFnordLight(number)`: `return self.lights[number]`. -/
def FnordBus.getFnordLight (bus : FnordBus) (number : Int) : Option FnordLight :=
  pyIndex bus.lights number

/-- `FnordBus.__init__(serial_port)`: open the serial connection (wire log
empty), create one `FnordLight(self, x)` for `x in range(LIGHTCOUNT)`, then
`self.sync()` and `self.stop()` (both with their default arguments). The
parameter `i` is the bus's identity, used as the back-reference held by its
lights. -/
def mkFnordBus (i : Nat) : FnordBus × Bool :=
  let bus0 : FnordBus :=
    { id := i, events := [], red := 0, green := 0, blue := 0,
      lights := (List.range LIGHTCOUNT).map
        (fun x => { fnordcontroller := i, number := x, red := 0, green := 0, blue := 0 }) }
  match bus0.sync_default with
  | (bus1, true) =>
      match bus1.stop_default with
      | (bus2, ok2) => (bus2, ok2)
  | (bus1, false) => (bus1, false)

/-- Python `int(q)` for a real value: truncation toward zero. -/
def pyInt (q : ℚ) : ℤ :=
  if q < 0 then ⌈q⌉ else ⌊q⌋

/-- `FnordFader` (the spec's ColorBlend): an ordered list of color triples. -/
structure FnordFader where
  colors : List (ℤ × ℤ × ℤ)
  deriving DecidableEq

/-- `FnordFader.addColor(color)`: appends to the palette. -/
def FnordFader.addColor (f : FnordFader) (color : ℤ × ℤ × ℤ) : FnordFader :=
  { f with colors := f.colors ++ [color] }

/-- `FnordFader.getColor(value)`. The branch replacing an invalid `value`
by `random.random()` is nondeterministic and modelled as `none`; on the
deterministic branch the code computes `position = value * (len(colors)-1)`,
brackets it with `int(floor(...))` / `int(ceil(...))`, and blends with the
inverted weights `low * amount + high * (1 - amount)`, truncating each
channel with `int(...)`. An out-of-bounds palette index (`IndexError`) is
also `none`. -/
def FnordFader.getColor (f : FnordFader) (value : ℚ) : Option (ℤ × ℤ × ℤ) :=
  if value = -1 ∨ value < 0 ∨ value > 1 then none
  else
    let position : ℚ := value * ((f.colors.length : ℚ) - 1)
    let lower : ℤ := ⌊position⌋
    let upper : ℤ := ⌈position⌉
    let amount : ℚ := position - (lower : ℚ)
    match pyIndex f.colors lower, pyIndex f.colors upper with
    | some (lred, lgreen, lblue), some (hred, hgreen, hblue) =>
        some (pyInt ((lred : ℚ) * amount + (hred : ℚ) * (1 - amount)),
              pyInt ((lgreen : ℚ) * amount + (hgreen : ℚ) * (1 - amount)),
              pyInt ((lblue : ℚ) * amount + (hblue : ℚ) * (1 - amount)))
    | _, _ => none

/-- Python `list.remove(x)`: removes the first element equal to `x`; raises
`ValueError` (modelled as `none`) when no element matches, leaving the list
untouched. -/
def pyRemove [DecidableEq α] : List α → α → Option (List α)
  | [], _ => none
  | y :: ys, x => if x = y then some ys else (pyRemove ys x).map (y :: ·)

/-- `FnordCluster` over an abstract member type `L` (members are
FnordLights or nested FnordClusters — duck typing): the ordered member list
and the cached cluster color. -/
structure FnordCluster (L : Type) where
  cluster : List L
  red : Int
  green : Int
  blue : Int

/-- `FnordCluster.registerLight(light)`: appends to the member list. -/
def FnordCluster.registerLight (c : FnordCluster L) (light : L) : FnordCluster L :=
  { c with cluster := c.cluster ++ [light] }

/-- `FnordCluster.removeLight(light)`: `self.cluster.remove(light)`. The
`Bool` records whether the call completed without raising `ValueError`; on
a raise the member list is unchanged. -/
def FnordCluster.removeLight [DecidableEq L] (c : FnordCluster L) (light : L) :
    FnordCluster L × Bool :=
  match pyRemove c.cluster light with
  | some l => ({ c with cluster := l }, true)
  | none => (c, false)

/-- The loop body of `FnordCluster.fade_rgb`: `for light in members:
light.fade_rgb(r, g, b, step, delay)`. Each member's `fade_rgb` is an
arbitrary fallible action `beh` (dynamic dispatch); the result records every
call made, in order and with its arguments, and the first raised error, at
which the loop aborts (exception propagation). -/
def fadeMembers (beh : L → Int → Int → Int → Int → Int → Except ε Unit) :
    List L → Int → Int → Int → Int → Int →
    List (L × (Int × Int × Int × Int × Int)) × Option ε
  | [], _, _, _, _, _ => ([], none)
  | m :: rest, r, g, b, step, delay =>
    match beh m r g b step delay with
    | Except.ok _ =>
        match fadeMembers beh rest r g b step delay with
        | (calls, e) => ((m, (r, g, b, step, delay)) :: calls, e)
    | Except.error e => ([(m, (r, g, b, step, delay))], some e)

/-- `FnordCluster.fade_rgb(r, g, b, step, delay)`: iterate the member list,
forwarding the arguments unchanged to each member. -/
def FnordCluster.fade_rgb (c : FnordCluster L)
    (beh : L → Int → Int → Int → Int → Int → Except ε Unit)
    (r g b step delay : Int) :
    List (L × (Int × Int × Int × Int × Int)) × Option ε :=
  fadeMembers beh c.cluster r g b step delay

/-- One of the three write-performing bus operations, with its arguments. -/
inductive BusOp where
  | syncOp : Int → BusOp
  | fadeOp : Int → Int → Int → Int → Int → Int → BusOp
  | stopOp : Int → Int → BusOp

/-- The `chr` arguments the operation writes while holding the lock. -/
def BusOp.frame : BusOp → List Int
  | syncOp a => sync_frame a
  | fadeOp a r g b s d => fade_frame a r g b s d
  | stopOp a f => stop_frame a f

/-- One atomic step a thread `t : τ` takes against the shared bus:
`self.lock.acquire()`, `self.lock.release()`, one `con.write(chr(x))`, or
one of the two flush calls of `self.flush()`. -/
inductive BusAction (τ : Type) where
  | acquire : τ → BusAction τ
  | release : τ → BusAction τ
  | write : τ → Int → BusAction τ
  | flushIn : τ → BusAction τ
  | flushOut : τ → BusAction τ
  deriving DecidableEq

/-- The exact step sequence of one bus operation run by thread `t`, read
off the source: acquire the lock, write every frame byte, flush, release. -/
def opProgram (t : τ) (o : BusOp) : List (BusAction τ) :=
  BusAction.acquire t ::
    (o.frame.map (BusAction.write t) ++
      [BusAction.flushIn t, BusAction.flushOut t, BusAction.release t])

/-- Mutual-exclusion semantics of `threading.Lock`: given the current
holder, a trace is admissible when no `acquire` happens while the lock is
held and every `release` is by the holder. Writes and flushes are not
restricted by the lock itself. -/
def lockOk [DecidableEq τ] : Option τ → List (BusAction τ) → Bool
  | _, [] => true
  | none, BusAction.acquire t :: rest => lockOk (some t) rest
  | some _, BusAction.acquire _ :: _ => false
  | some t, BusAction.release u :: rest => if t = u then lockOk none rest else false
  | none, BusAction.release _ :: _ => false
  | s, BusAction.write _ _ :: rest => lockOk s rest
  | s, BusAction.flushIn _ :: rest => lockOk s rest
  | s, BusAction.flushOut _ :: rest => lockOk s rest

/-- `a.isLockFree` holds for the actions between an operation's `acquire`
and its `release` (writes and flushes). -/
def BusAction.isLockFree : BusAction τ → Bool
  | BusAction.acquire _ => false
  | BusAction.release _ => false
  | _ => true

/-- `Interleaving xs ys zs`: `zs` is a merge of `xs` and `ys` keeping the
relative order of each — the possible schedules of two concurrent threads. -/
inductive Interleaving : List α → List α → List α → Prop where
  | nil : Interleaving [] [] []
  | left : Interleaving xs ys zs → Interleaving (x :: xs) ys (x :: zs)
  | right : Interleaving xs ys zs → Interleaving xs (y :: ys) (y :: zs)

/-! ### Basic facts about `chr` and `writeAll` -/

lemma chr_coe (n : Nat) (h : n ≤ 255) : chr n = some n := by
  unfold chr
  rw [if_pos ⟨Int.natCast_nonneg n, by exact_mod_cast Nat.lt_succ_of_le h⟩]
  simp

lemma chr_out (x : Int) (h : x < 0 ∨ 255 < x) : chr x = none := by
  unfold chr
  rw [if_neg]
  omega

lemma writeAll_ok : ∀ (frame : List Int) (evs : List WireEvent),
    (∀ x ∈ frame, 0 ≤ x ∧ x < 256) →
    writeAll evs (frame.map chr) =
      (evs ++ frame.map (fun x => WireEvent.byte x.toNat), true) := by
  intro frame
  induction frame with
  | nil => intro evs _; simp [writeAll]
  | cons x xs ih =>
      intro evs h
      have hchr : chr x = some x.toNat := by
        unfold chr; rw [if_pos (h x (List.mem_cons_self x xs))]
      rw [List.map_cons, hchr]
      show writeAll (evs ++ [WireEvent.byte x.toNat]) (xs.map chr) = _
      rw [ih (evs ++ [WireEvent.byte x.toNat]) (fun y hy => h y (List.mem_cons_of_mem x hy))]
      simp

lemma sendFrame_ok (bus : FnordBus) (frame : List Int)
    (h : ∀ x ∈ frame, 0 ≤ x ∧ x < 256) :
    bus.sendFrame frame =
      ({ bus with events := bus.events ++ frame.map (fun x => WireEvent.byte x.toNat) ++
          [WireEvent.flushInput, WireEvent.flushOutput] }, true) := by
  unfold FnordBus.sendFrame
  rw [writeAll_ok frame bus.events h]

lemma fade_frame_inRange (addr r g b step delay : Nat)
    (h1 : addr ≤ 255) (h2 : r ≤ 255) (h3 : g ≤ 255) (h4 : b ≤ 255)
    (h5 : step ≤ 255) (h6 : delay ≤ 255) :
    ∀ x ∈ fade_frame addr r g b step delay, 0 ≤ x ∧ x < 256 := by
  intro x hx
  simp [fade_frame, List.mem_replicate] at hx
  rcases hx with rfl | rfl | rfl | rfl | rfl | rfl | rfl | rfl <;> constructor <;> omega

/-- C1: for every address `addr` and every `r`, `g`, `b`, `step`, `delay` in
[0,255], `FnordBus.fade_rgb` appends to the wire exactly the 15-byte frame
`addr, 1, step, delay, r, g, b` followed by eight zero bytes, then the flush
(of input and output), writing nothing else, and completes successfully. -/
theorem fade_rgb_wire_exact (bus : FnordBus) (addr r g b step delay : Nat)
    (h1 : addr ≤ 255) (h2 : r ≤ 255) (h3 : g ≤ 255) (h4 : b ≤ 255)
    (h5 : step ≤ 255) (h6 : delay ≤ 255) :
    bus.fade_rgb addr r g b step delay =
      ({ bus with events := bus.events ++
          ([WireEvent.byte addr, WireEvent.byte 1, WireEvent.byte step,
            WireEvent.byte delay, WireEvent.byte r, WireEvent.byte g, WireEvent.byte b] ++
           List.replicate 8 (WireEvent.byte 0) ++
           [WireEvent.flushInput, WireEvent.flushOutput]) }, true) := by
  unfold FnordBus.fade_rgb
  rw [sendFrame_ok bus _ (fade_frame_inRange addr r g b step delay h1 h2 h3 h4 h5 h6)]
  simp [fade_frame, List.map_replicate]

/-- Witness for C1 at a concrete bus and concrete arguments. -/
theorem fade_rgb_wire_exact_witness :
    (FnordBus.mk 0 [] 0 0 0 []).fade_rgb 7 10 20 30 5 0 =
      ({ FnordBus.mk 0 [] 0 0 0 [] with events :=
          ([WireEvent.byte 7, WireEvent.byte 1, WireEvent.byte 5,
            WireEvent.byte 0, WireEvent.byte 10, WireEvent.byte 20, WireEvent.byte 30] ++
           List.replicate 8 (WireEvent.byte 0) ++
           [WireEvent.flushInput, WireEvent.flushOutput]) }, true) := by
  have h := fade_rgb_wire_exact (FnordBus.mk 0 [] 0 0 0 []) 7 10 20 30 5 0
    (by decide) (by decide) (by decide) (by decide) (by decide) (by decide)
  simpa using h

lemma sync_frame_inRange (addr : Nat) (h : addr ≤ 255) :
    ∀ x ∈ sync_frame addr, 0 ≤ x ∧ x < 256 := by
  intro x hx
  simp [sync_frame, List.mem_replicate] at hx
  rcases hx with ⟨-, rfl⟩ | rfl <;> constructor <;> omega

/-- C2 (amended): `FnordBus.sync addr` appends exactly fifteen bytes of
value 27 followed by the address byte `addr`, then the flush, and the
argumentless `sync()` uses the source's default address 0 (not the
broadcast address 255). -/
theorem sync_wire_exact (bus : FnordBus) (addr : Nat) (h : addr ≤ 255) :
    bus.sync addr =
      ({ bus with events := bus.events ++
          (List.replicate 15 (WireEvent.byte 27) ++
           [WireEvent.byte addr, WireEvent.flushInput, WireEvent.flushOutput]) }, true) ∧
    bus.sync_default = bus.sync 0 := by
  constructor
  · unfold FnordBus.sync
    rw [sendFrame_ok bus _ (sync_frame_inRange addr h)]
    simp [sync_frame, List.map_replicate]
  · rfl

/-- Witness for C2's amended theorem at a concrete bus and address. -/
theorem sync_wire_exact_witness :
    (FnordBus.mk 0 [] 0 0 0 []).sync 255 =
      ({ FnordBus.mk 0 [] 0 0 0 [] with events :=
          (List.replicate 15 (WireEvent.byte 27) ++
           [WireEvent.byte 255, WireEvent.flushInput, WireEvent.flushOutput]) }, true) ∧
    (FnordBus.mk 0 [] 0 0 0 []).sync_default = (FnordBus.mk 0 [] 0 0 0 []).sync 0 := by
  have h := sync_wire_exact (FnordBus.mk 0 [] 0 0 0 []) 255 (by decide)
  simpa using h

/-- Counterexample for C2 as stated: the address byte written by an
argumentless `sync()` (the 16th wire event) is 0, not the broadcast
address 255. -/
theorem sync_default_not_broadcast :
    ((FnordBus.mk 0 [] 0 0 0 []).sync_default).1.events.get? 15 =
      some (WireEvent.byte 0) ∧
    WireEvent.byte 0 ≠ WireEvent.byte 255 := by
  decide

/-- C4: constructing a bus emits on the wire exactly one sync frame
(with the default address 0) followed by exactly one stop frame addressed
to broadcast (255) with fading flag 1, and nothing else, successfully. -/
theorem bus_init_wire (i : Nat) :
    (mkFnordBus i).1.events =
      (List.replicate 15 (WireEvent.byte 27) ++
        [WireEvent.byte 0, WireEvent.flushInput, WireEvent.flushOutput]) ++
      ([WireEvent.byte 255, WireEvent.byte 8, WireEvent.byte 1] ++
        List.replicate 12 (WireEvent.byte 0) ++
        [WireEvent.flushInput, WireEvent.flushOutput]) ∧
    (mkFnordBus i).2 = true := by
  have h0 : ∀ x ∈ sync_frame 0, 0 ≤ x ∧ x < 256 := by decide
  have h1 : ∀ x ∈ stop_frame 255 1, 0 ≤ x ∧ x < 256 := by decide
  simp only [mkFnordBus, FnordBus.sync_default, FnordBus.stop_default, FnordBus.sync,
    FnordBus.stop, sendFrame_ok _ _ h0, sendFrame_ok _ _ h1]
  constructor <;> decide

/-! ### Partial writes on invalid arguments (fade_rgb without validation) -/

/-- Counterexample for C6 as stated: calling `fade_rgb` with `r = 300`
(out of byte range) does write bytes to the transport — the address,
command-code, step and delay bytes go out before `chr(r)` raises. -/
theorem fade_rgb_invalid_writes_bytes :
    ((FnordBus.mk 0 [] 0 0 0 []).fade_rgb 0 300 0 0 5 0).2 = false ∧
    ((FnordBus.mk 0 [] 0 0 0 []).fade_rgb 0 300 0 0 5 0).1.events =
      [WireEvent.byte 0, WireEvent.byte 1, WireEvent.byte 5, WireEvent.byte 0] ∧
    ((FnordBus.mk 0 [] 0 0 0 []).fade_rgb 0 300 0 0 5 0).1.events ≠ [] := by
  decide

/-- Writing a frame whose first out-of-range element is `bad` emits
exactly the in-range prefix before `bad` and then aborts (no flush). -/
lemma writeAll_stops :
    ∀ (pre : List Int) (bad : Int) (rest : List Int) (evs : List WireEvent),
      (∀ x ∈ pre, 0 ≤ x ∧ x < 256) →
      (bad < 0 ∨ 255 < bad) →
      writeAll evs ((pre ++ bad :: rest).map chr) =
        (evs ++ pre.map (fun x => WireEvent.byte x.toNat), false) := by
  intro pre
  induction pre with
  | nil =>
      intro bad rest evs _ hbad
      rw [List.nil_append, List.map_cons, chr_out bad hbad]
      simp [writeAll]
  | cons x xs ih =>
      intro bad rest evs hpre hbad
      have hx : chr x = some x.toNat := by
        unfold chr; rw [if_pos (hpre x (List.mem_cons_self x xs))]
      rw [List.cons_append, List.map_cons, hx]
      show writeAll (evs ++ [WireEvent.byte x.toNat]) ((xs ++ bad :: rest).map chr) = _
      rw [ih bad rest (evs ++ [WireEvent.byte x.toNat])
        (fun y hy => hpre y (List.mem_cons_of_mem x hy)) hbad]
      simp

/-- C6 (amended): when any argument of `fade_rgb` is out of byte range the
operation fails (Python 2 `chr` raises `ValueError`), but only mid-frame,
inside the guard: exactly the frame bytes preceding the first out-of-range
argument have already been written to the transport, and no flush happens.
The hypotheses split the frame `addr, 1, step, delay, r, g, b, 0×8` at its
first out-of-range element, so every offending argument (addr, step,
delay, r, g or b) is covered. The arguments are not validated before wire
traffic. -/
theorem fade_rgb_invalid_partial_frame (bus : FnordBus) (addr r g b step delay : Int)
    (pre : List Int) (bad : Int) (rest : List Int)
    (hsplit : fade_frame addr r g b step delay = pre ++ bad :: rest)
    (hpre : ∀ x ∈ pre, 0 ≤ x ∧ x < 256)
    (hbad : bad < 0 ∨ 255 < bad) :
    bus.fade_rgb addr r g b step delay =
      ({ bus with
          events := bus.events ++ pre.map (fun x => WireEvent.byte x.toNat) }, false) := by
  unfold FnordBus.fade_rgb FnordBus.sendFrame
  rw [hsplit, writeAll_stops pre bad rest bus.events hpre hbad]

/-! ### The lights collection -/

lemma sendFrame_lights (bus : FnordBus) (frame : List Int) :
    (bus.sendFrame frame).1.lights = bus.lights := by
  rcases hw : writeAll bus.events (frame.map chr) with ⟨evs, ok⟩
  cases ok <;> simp [FnordBus.sendFrame, hw]

lemma mk_lights (i : Nat) : (mkFnordBus i).1.lights =
    (List.range LIGHTCOUNT).map (fun x => FnordLight.mk i x 0 0 0) := by
  have h0 : ∀ x ∈ sync_frame 0, 0 ≤ x ∧ x < 256 := by decide
  have h1 : ∀ x ∈ stop_frame 255 1, 0 ≤ x ∧ x < 256 := by decide
  simp only [mkFnordBus, FnordBus.sync_default, FnordBus.stop_default, FnordBus.sync,
    FnordBus.stop, sendFrame_ok _ _ h0, sendFrame_ok _ _ h1]

lemma mk_lights_get (i n : Nat) :
    (mkFnordBus i).1.lights.get? n =
      if n < LIGHTCOUNT then some (FnordLight.mk i n 0 0 0) else none := by
  rw [mk_lights, List.get?_map]
  by_cases h : n < LIGHTCOUNT
  · rw [List.get?_range h]
    simp [h]
  · rw [List.get?_eq_none.mpr (by simpa using Nat.le_of_not_lt h)]
    simp [h]

/-- C10: a freshly constructed bus holds exactly `LIGHTCOUNT` light
handles, the handle at index `n` having address `n` and back-referencing
the constructing bus; and no bus operation (`sync`, `fade_rgb`, `stop`,
`black`, `setRGB`, `update`) changes the lights collection
(`getFnordLight` is a pure read: it returns a handle and produces no new
bus state at all). -/
theorem lights_collection_fixed (i : Nat) :
    (mkFnordBus i).1.lights.length = LIGHTCOUNT ∧
    (∀ n : Nat, (mkFnordBus i).1.lights.get? n =
      if n < LIGHTCOUNT then some (FnordLight.mk i n 0 0 0) else none) ∧
    (∀ (bus : FnordBus) (a : Int), (bus.sync a).1.lights = bus.lights) ∧
    (∀ (bus : FnordBus) (addr r g b step delay : Int),
      (bus.fade_rgb addr r g b step delay).1.lights = bus.lights) ∧
    (∀ (bus : FnordBus) (a f : Int), (bus.stop a f).1.lights = bus.lights) ∧
    (∀ (bus : FnordBus) (a : Int), (bus.black a).1.lights = bus.lights) ∧
    (∀ (bus : FnordBus) (r g b : Int), (bus.setRGB r g b).lights = bus.lights) ∧
    (∀ bus : FnordBus, bus.update.1.lights = bus.lights) := by
  refine ⟨?_, mk_lights_get i, ?_, ?_, ?_, ?_, ?_, ?_⟩
  · rw [mk_lights]; simp
  · intro bus a; exact sendFrame_lights bus _
  · intro bus addr r g b step delay; exact sendFrame_lights bus _
  · intro bus a f; exact sendFrame_lights bus _
  · intro bus a; exact sendFrame_lights bus _
  · intro bus r g b; rfl
  · intro bus; exact sendFrame_lights bus _

/-- Counterexample for C7 as stated: `getFnordLight(-1)` does not fail —
Python's negative indexing returns the light with address 19. -/
theorem getFnordLight_negative_succeeds :
    (mkFnordBus 0).1.getFnordLight (-1) = some (FnordLight.mk 0 19 0 0 0) := by
  decide

/-- C7 (amended): `getFnordLight(number)` returns the handle with address
`number` for `number` in [0, LIGHTCOUNT); for `number` in [-LIGHTCOUNT, 0)
it returns the handle at index `LIGHTCOUNT + number` (Python negative
indexing); it fails (`IndexError`) only for `number < -LIGHTCOUNT` or
`number ≥ LIGHTCOUNT`. -/
theorem getFnordLight_ranges (i : Nat) (n : Int) :
    ((0 ≤ n ∧ n < (LIGHTCOUNT : Int)) →
      (mkFnordBus i).1.getFnordLight n = some (FnordLight.mk i n.toNat 0 0 0)) ∧
    ((-(LIGHTCOUNT : Int) ≤ n ∧ n < 0) →
      (mkFnordBus i).1.getFnordLight n =
        some (FnordLight.mk i (n + LIGHTCOUNT).toNat 0 0 0)) ∧
    ((n < -(LIGHTCOUNT : Int) ∨ (LIGHTCOUNT : Int) ≤ n) →
      (mkFnordBus i).1.getFnordLight n = none) := by
  have hL : LIGHTCOUNT = 20 := rfl
  have hlen : ((mkFnordBus i).1.lights.length : Int) = 20 := by
    rw [mk_lights]; simp [hL]
  refine ⟨?_, ?_, ?_⟩
  · rintro ⟨hn0, hn1⟩
    rw [hL] at hn1
    unfold FnordBus.getFnordLight pyIndex
    rw [if_pos hn0, mk_lights_get]
    rw [if_pos (by omega : n.toNat < LIGHTCOUNT)]
  · rintro ⟨hn0, hn1⟩
    rw [hL] at hn0
    unfold FnordBus.getFnordLight pyIndex
    rw [if_neg (by omega), hlen, if_pos (by omega : (0:Int) ≤ n + 20), mk_lights_get]
    rw [if_pos (by simp [hL]; omega : (n + 20).toNat < LIGHTCOUNT)]
    rw [show ((LIGHTCOUNT : Int)) = 20 from rfl]
  · intro hcase
    unfold FnordBus.getFnordLight pyIndex
    rcases hcase with hlt | hge
    · rw [hL] at hlt
      rw [if_neg (by omega), hlen, if_neg (by omega)]
    · rw [hL] at hge
      rw [if_pos (by omega), mk_lights_get, if_neg (by simp [hL]; omega)]

/-- Witness for C7's amended theorem: index 3 and index -3 return the
lights with addresses 3 and 17; index 25 fails. -/
theorem getFnordLight_ranges_witness :
    (mkFnordBus 0).1.getFnordLight 3 = some (FnordLight.mk 0 3 0 0 0) ∧
    (mkFnordBus 0).1.getFnordLight (-3) = some (FnordLight.mk 0 17 0 0 0) ∧
    (mkFnordBus 0).1.getFnordLight 25 = none := by
  refine ⟨?_, ?_, ?_⟩
  · simpa using (getFnordLight_ranges 0 3).1 (by decide)
  · simpa using (getFnordLight_ranges 0 (-3)).2.1 (by decide)
  · exact (getFnordLight_ranges 0 25).2.2 (by decide)

/-! ### FnordFader interpolation -/

/-- Counterexample for C5 as stated: on the palette
`[(0,0,0), (255,255,255)]` the value 0.0 selects `lower = upper = 0`, so
both blend inputs are `(0,0,0)` and the result is `(0,0,0)`, not
`(255,255,255)`. -/
theorem getColor_zero_is_black :
    (((FnordFader.mk []).addColor (0, 0, 0)).addColor (255, 255, 255)).getColor 0 =
      some (0, 0, 0) ∧
    some ((0 : ℤ), (0 : ℤ), (0 : ℤ)) ≠ some ((255 : ℤ), (255 : ℤ), (255 : ℤ)) := by
  constructor
  · norm_num [FnordFader.getColor, FnordFader.addColor, pyIndex, pyInt]
  · decide

/-- C5 (amended): with the palette `[(0,0,0), (255,255,255)]` in that
order, `getColor` returns `(0,0,0)` at value 0.0 and `(255,255,255)` at
value 1.0 (at the endpoints `floor` and `ceil` coincide, so the
inverted-weight formula does not swap them), and `(127,127,127)` at value
0.5 (integer truncation of 127.5). -/
theorem getColor_endpoints_and_half :
    (((FnordFader.mk []).addColor (0, 0, 0)).addColor (255, 255, 255)).getColor 0 =
      some (0, 0, 0) ∧
    (((FnordFader.mk []).addColor (0, 0, 0)).addColor (255, 255, 255)).getColor 1 =
      some (255, 255, 255) ∧
    (((FnordFader.mk []).addColor (0, 0, 0)).addColor (255, 255, 255)).getColor (1 / 2) =
      some (127, 127, 127) := by
  have hc : (⌈(1 : ℚ) / 2⌉ : ℤ) = 1 := by
    rw [Int.ceil_eq_iff]; norm_num
  have hf : (⌊(1 : ℚ) / 2⌋ : ℤ) = 0 := by norm_num
  refine ⟨?_, ?_, ?_⟩ <;>
    norm_num [FnordFader.getColor, FnordFader.addColor, pyIndex, pyInt, hc, hf]

/-! ### FnordCluster dispatch -/

lemma fadeMembers_all_ok {L ε : Type}
    (beh : L → Int → Int → Int → Int → Int → Except ε Unit) :
    ∀ (members : List L) (r g b step delay : Int),
      (∀ m ∈ members, beh m r g b step delay = Except.ok ()) →
      fadeMembers beh members r g b step delay =
        (members.map (fun m => (m, (r, g, b, step, delay))), none) := by
  intro members
  induction members with
  | nil => intro r g b step delay _; rfl
  | cons m rest ih =>
      intro r g b step delay h
      have hm := h m (List.mem_cons_self m rest)
      simp only [fadeMembers, hm]
      rw [ih r g b step delay (fun m2 hm2 => h m2 (List.mem_cons_of_mem m hm2))]
      simp

lemma fadeMembers_first_error {L ε : Type}
    (beh : L → Int → Int → Int → Int → Int → Except ε Unit) :
    ∀ (pre : List L) (m : L) (post : List L) (e : ε) (r g b step delay : Int),
      (∀ m2 ∈ pre, beh m2 r g b step delay = Except.ok ()) →
      beh m r g b step delay = Except.error e →
      fadeMembers beh (pre ++ m :: post) r g b step delay =
        ((pre ++ [m]).map (fun m2 => (m2, (r, g, b, step, delay))), some e) := by
  intro pre
  induction pre with
  | nil =>
      intro m post e r g b step delay _ hm
      simp only [List.nil_append, fadeMembers, hm]
      simp
  | cons p rest ih =>
      intro m post e r g b step delay hpre hm
      have hp := hpre p (List.mem_cons_self p rest)
      simp only [List.cons_append, List.append_eq, fadeMembers, hp]
      rw [ih m post e r g b step delay
        (fun m2 hm2 => hpre m2 (List.mem_cons_of_mem p hm2)) hm]
      simp

/-- C8: `FnordCluster.fade_rgb` calls `fade_rgb` once per member, in
insertion order, forwarding `r, g, b, step, delay` unchanged to every
member; when every member succeeds no error is reported, and the first
member failure aborts the loop (members after it are not called) and is
the propagated error. -/
theorem cluster_fade_dispatch {L ε : Type}
    (beh : L → Int → Int → Int → Int → Int → Except ε Unit)
    (c : FnordCluster L) (r g b step delay : Int) :
    ((∀ m ∈ c.cluster, beh m r g b step delay = Except.ok ()) →
      c.fade_rgb beh r g b step delay =
        (c.cluster.map (fun m => (m, (r, g, b, step, delay))), none)) ∧
    (∀ (pre : List L) (m : L) (post : List L) (e : ε),
      c.cluster = pre ++ m :: post →
      (∀ m2 ∈ pre, beh m2 r g b step delay = Except.ok ()) →
      beh m r g b step delay = Except.error e →
      c.fade_rgb beh r g b step delay =
        ((pre ++ [m]).map (fun m2 => (m2, (r, g, b, step, delay))), some e)) := by
  constructor
  · intro h
    exact fadeMembers_all_ok beh c.cluster r g b step delay h
  · intro pre m post e hsplit hpre hm
    unfold FnordCluster.fade_rgb
    rw [hsplit]
    exact fadeMembers_first_error beh pre m post e r g b step delay hpre hm

/-- Witness for C8: a three-member cluster where every member succeeds
produces one call per member in order; a cluster whose second member fails
calls only the first two members and propagates that failure. -/
theorem cluster_fade_dispatch_witness :
    FnordCluster.fade_rgb (FnordCluster.mk [10, 11, 12] 0 0 0)
        (fun _ _ _ _ _ _ => (Except.ok () : Except Nat Unit)) 1 2 3 4 5 =
      ([(10, (1, 2, 3, 4, 5)), (11, (1, 2, 3, 4, 5)), (12, (1, 2, 3, 4, 5))],
        (none : Option Nat)) ∧
    FnordCluster.fade_rgb (FnordCluster.mk [10, 11, 12] 0 0 0)
        (fun m _ _ _ _ _ => if m = 11 then (Except.error 99 : Except Nat Unit)
          else Except.ok ()) 1 2 3 4 5 =
      ([(10, (1, 2, 3, 4, 5)), (11, (1, 2, 3, 4, 5))], some 99) := by
  constructor
  · have h := (cluster_fade_dispatch
      (fun _ _ _ _ _ _ => (Except.ok () : Except Nat Unit))
      (FnordCluster.mk [10, 11, 12] 0 0 0) 1 2 3 4 5).1 (fun m _ => rfl)
    simpa using h
  · have h := (cluster_fade_dispatch
      (fun m _ _ _ _ _ => if m = 11 then (Except.error 99 : Except Nat Unit)
        else Except.ok ())
      (FnordCluster.mk [10, 11, 12] 0 0 0) 1 2 3 4 5).2
      [10] 11 [12] 99 rfl (by intro m2 hm2; simp at hm2; subst hm2; simp) (by simp)
    simpa using h

/-! ### FnordCluster removal -/

lemma pyRemove_not_mem [DecidableEq α] :
    ∀ (l : List α) (x : α), x ∉ l → pyRemove l x = none := by
  intro l
  induction l with
  | nil => intro x _; rfl
  | cons y ys ih =>
      intro x hx
      have hxy : ¬x = y := fun h => hx (h ▸ List.mem_cons_self y ys)
      simp only [pyRemove, if_neg hxy]
      rw [ih x (fun h => hx (List.mem_cons_of_mem y h))]
      rfl

/-- C9: removing a non-member from a cluster fails (`list.remove` raises
`ValueError`, the spec's `NotFound`) and leaves the member list exactly
unchanged. -/
theorem removeLight_absent_unchanged {L : Type} [DecidableEq L]
    (c : FnordCluster L) (t : L) (h : t ∉ c.cluster) :
    c.removeLight t = (c, false) := by
  unfold FnordCluster.removeLight
  rw [pyRemove_not_mem c.cluster t h]

/-- Witness for C9 at a concrete cluster and absent member. -/
theorem removeLight_absent_unchanged_witness :
    (FnordCluster.mk [1, 2] 0 0 0).removeLight 5 =
      (FnordCluster.mk [1, 2] 0 0 0, false) :=
  removeLight_absent_unchanged (FnordCluster.mk [1, 2] 0 0 0) 5 (by decide)

/-! ### Serialization of concurrent bus operations -/

lemma interleaving_nil_left : ∀ {ys zs : List α}, Interleaving [] ys zs → zs = ys := by
  intro ys
  induction ys with
  | nil => intro zs h; cases h; rfl
  | cons y ys ih =>
      intro zs h
      cases h with
      | right h2 => rw [ih h2]

lemma interleaving_nil_right (ys : List α) : Interleaving [] ys ys := by
  induction ys with
  | nil => exact Interleaving.nil
  | cons y ys ih => exact Interleaving.right ih

lemma interleaving_append (xs ys : List α) : Interleaving xs ys (xs ++ ys) := by
  induction xs with
  | nil => simpa using interleaving_nil_right ys
  | cons x xs ih => exact Interleaving.left ih

lemma opProgram_body_lockFree (t : τ) (o : BusOp) :
    ∀ a ∈ o.frame.map (BusAction.write t) ++ [BusAction.flushIn t, BusAction.flushOut t],
      a.isLockFree = true := by
  intro a ha
  rcases List.mem_append.1 ha with hm | hm
  · obtain ⟨x, -, rfl⟩ := List.mem_map.1 hm
    rfl
  · simp at hm
    rcases hm with rfl | rfl <;> rfl

/-- While a thread holds the lock and has only lock-free actions left
before its `release`, an admissible schedule cannot run any action of the
other thread (whose next action is an `acquire`): the locked section runs
alone, and the other thread's whole program follows the `release`. -/
lemma locked_section_runs_alone [DecidableEq τ] (t : τ) :
    ∀ (body : List (BusAction τ)) {ys zs : List (BusAction τ)},
      (∀ a ∈ body, a.isLockFree = true) →
      (ys = [] ∨ ∃ u ys2, ys = BusAction.acquire u :: ys2) →
      Interleaving (body ++ [BusAction.release t]) ys zs →
      lockOk (some t) zs = true →
      zs = body ++ BusAction.release t :: ys := by
  intro body
  induction body with
  | nil =>
      intro ys zs _ hy hI hL
      rcases hy with rfl | ⟨u, ys2, rfl⟩
      · cases hI with
        | left h2 => rw [interleaving_nil_left h2]; rfl
      · cases hI with
        | left h2 => rw [interleaving_nil_left h2]; rfl
        | right h2 => simp [lockOk] at hL
  | cons a body ih =>
      intro ys zs hbody hy hI hL
      have ha : a.isLockFree = true := hbody a (List.mem_cons_self a body)
      rcases hy with rfl | ⟨u, ys2, rfl⟩
      · cases hI with
        | left h2 =>
            have htail := ih (fun x hx => hbody x (List.mem_cons_of_mem a hx))
              (Or.inl rfl) h2 (by
                cases a with
                | acquire u2 => simp [BusAction.isLockFree] at ha
                | release u2 => simp [BusAction.isLockFree] at ha
                | write u2 x => simpa [lockOk] using hL
                | flushIn u2 => simpa [lockOk] using hL
                | flushOut u2 => simpa [lockOk] using hL)
            rw [htail]; rfl
      · cases hI with
        | left h2 =>
            have htail := ih (fun x hx => hbody x (List.mem_cons_of_mem a hx))
              (Or.inr ⟨u, ys2, rfl⟩) h2 (by
                cases a with
                | acquire u2 => simp [BusAction.isLockFree] at ha
                | release u2 => simp [BusAction.isLockFree] at ha
                | write u2 x => simpa [lockOk] using hL
                | flushIn u2 => simpa [lockOk] using hL
                | flushOut u2 => simpa [lockOk] using hL)
            rw [htail]; rfl
        | right h2 => simp [lockOk] at hL

lemma interleaving_comm {xs ys zs : List α} (h : Interleaving xs ys zs) :
    Interleaving ys xs zs := by
  induction h with
  | nil => exact Interleaving.nil
  | left h2 ih => exact Interleaving.right ih
  | right h2 ih => exact Interleaving.left ih

lemma opProgram_split (t : τ) (o : BusOp) :
    opProgram t o = BusAction.acquire t ::
      ((o.frame.map (BusAction.write t) ++ [BusAction.flushIn t, BusAction.flushOut t]) ++
        [BusAction.release t]) := by
  rw [opProgram, List.append_assoc]
  rfl

/-- C3: any admissible schedule (an order-preserving interleaving obeying
the lock semantics) of two concurrent bus operations — each of `sync`,
`fade_rgb`, `stop`, whose step sequence acquires the guard before its
first byte and releases it only after the flush — runs them back to back
in one of the two serial orders: the bytes of the two frames never
interleave. -/
theorem bus_ops_serialize [DecidableEq τ] (t1 t2 : τ) (o1 o2 : BusOp)
    (tr : List (BusAction τ))
    (hI : Interleaving (opProgram t1 o1) (opProgram t2 o2) tr)
    (hL : lockOk none tr = true) :
    tr = opProgram t1 o1 ++ opProgram t2 o2 ∨
    tr = opProgram t2 o2 ++ opProgram t1 o1 := by
  rw [opProgram_split t1 o1, opProgram_split t2 o2] at hI
  cases hI with
  | left h2 =>
      left
      have htail := locked_section_runs_alone t1
        (o1.frame.map (BusAction.write t1) ++ [BusAction.flushIn t1, BusAction.flushOut t1])
        (opProgram_body_lockFree t1 o1)
        (Or.inr ⟨t2, o2.frame.map (BusAction.write t2) ++
          [BusAction.flushIn t2, BusAction.flushOut t2] ++ [BusAction.release t2], rfl⟩)
        h2 (by simpa [lockOk] using hL)
      rw [opProgram_split t1 o1, opProgram_split t2 o2, htail]
      simp [List.append_assoc]
  | right h2 =>
      right
      have htail := locked_section_runs_alone t2
        (o2.frame.map (BusAction.write t2) ++ [BusAction.flushIn t2, BusAction.flushOut t2])
        (opProgram_body_lockFree t2 o2)
        (Or.inr ⟨t1, o1.frame.map (BusAction.write t1) ++
          [BusAction.flushIn t1, BusAction.flushOut t1] ++ [BusAction.release t1], rfl⟩)
        (interleaving_comm h2) (by simpa [lockOk] using hL)
      rw [opProgram_split t1 o1, opProgram_split t2 o2, htail]
      simp [List.append_assoc]

/-- Witness for C3: the fully sequential schedule of a `sync` by thread 0
and a `stop` by thread 1 is admissible, and the theorem classifies it as
one of the two serial orders. -/
theorem bus_ops_serialize_witness :
    opProgram 0 (BusOp.syncOp 5) ++ opProgram 1 (BusOp.stopOp 255 1) =
      opProgram 0 (BusOp.syncOp 5) ++ opProgram 1 (BusOp.stopOp 255 1) ∨
    opProgram 0 (BusOp.syncOp 5) ++ opProgram 1 (BusOp.stopOp 255 1) =
      opProgram 1 (BusOp.stopOp 255 1) ++ opProgram 0 (BusOp.syncOp 5) :=
  bus_ops_serialize 0 1 (BusOp.syncOp 5) (BusOp.stopOp 255 1)
    (opProgram 0 (BusOp.syncOp 5) ++ opProgram 1 (BusOp.stopOp 255 1))
    (interleaving_append _ _) (by decide)

/-- Witness for C6's amended theorem with `g = -5` the offending argument:
the five frame bytes before it (`addr, 1, step, delay, r`) are written,
then the operation fails with no flush. -/
theorem fade_rgb_invalid_partial_frame_witness :
    (FnordBus.mk 0 [] 0 0 0 []).fade_rgb 2 7 (-5) 9 5 0 =
      ({ FnordBus.mk 0 [] 0 0 0 [] with events :=
          [WireEvent.byte 2, WireEvent.byte 1, WireEvent.byte 5, WireEvent.byte 0,
           WireEvent.byte 7] }, false) := by
  have h := fade_rgb_invalid_partial_frame (FnordBus.mk 0 [] 0 0 0 []) 2 7 (-5) 9 5 0
    [2, 1, 5, 0, 7] (-5) (9 :: List.replicate 8 0) (by decide) (by decide) (by decide)
  simpa using h
